import Mathlib

/-!
Formal model of the consensus-validation core of this repository:
`src/pow.cpp` (difficulty engine) and `src/evo/assetlocktx.cpp`
(asset lock / asset unlock special-transaction validator).

256-bit unsigned arithmetic (`arith_uint256`) is represented by `Nat`
with explicit reduction `% 2^256` wherever the C++ type wraps.  The
compact-target codec (`SetCompact` / `GetCompact`) and the few constants
declared in headers outside the modelled sources are reproduced from the
specification, as noted on each definition.
-/

/-- Modelled from the spec: bit length of a 256-bit unsigned integer
(`arith_uint256::bits()`, declared outside the modelled sources): the
position of the highest set bit plus one.  Implemented with an explicit
fuel argument so that it is computable by kernel reduction; `fuel = 256`
covers every value of the 256-bit type. -/
def bitlenAux : Nat → Nat → Nat
  | 0, _ => 0
  | fuel + 1, x => if x = 0 then 0 else bitlenAux fuel (x / 2) + 1

/-- Modelled from the spec: `arith_uint256::bits()` on values `< 2^256`. -/
def bits (x : Nat) : Nat := bitlenAux 256 x

/-- Modelled from the spec: `arith_uint256::GetLow64()`, the low 64 bits. -/
def getLow64 (x : Nat) : Nat := x % 2 ^ 64

/-- Result of decoding a compact target: the 256-bit value together with
the negative and overflow flags reported by `SetCompact`. -/
structure SetCompactResult where
  value : Nat
  negative : Bool
  overflow : Bool
deriving DecidableEq, Repr

/-- Modelled from the spec: `arith_uint256::SetCompact` (declared outside
the modelled sources) — decode the legacy 3-byte-mantissa/1-byte-exponent
compact form into a 256-bit value, reporting the sign and overflow flags.
The decoded value wraps modulo `2^256` exactly as the 256-bit shift does. -/
def SetCompact (nCompact : Nat) : SetCompactResult :=
  let nSize := nCompact >>> 24
  let nWord := nCompact &&& 0x007fffff
  let value :=
    if nSize ≤ 3 then nWord >>> (8 * (3 - nSize))
    else (nWord <<< (8 * (nSize - 3))) % 2 ^ 256
  { value := value
    negative := decide (nWord ≠ 0) && decide (nCompact &&& 0x00800000 ≠ 0)
    overflow := decide (nWord ≠ 0) &&
      (decide (34 < nSize) ||
       (decide (0xff < nWord) && decide (33 < nSize)) ||
       (decide (0xffff < nWord) && decide (32 < nSize))) }

/-- Modelled from the spec: `arith_uint256::GetCompact` (declared outside
the modelled sources) — encode a 256-bit value into the lossy compact
form (only the top mantissa bits survive).  All call sites in the
modelled code pass `fNegative = false`, so the sign bit is never set. -/
def GetCompact (x : Nat) : Nat :=
  let nSize := (bits x + 7) / 8
  let nCompact :=
    if nSize ≤ 3 then (getLow64 x <<< (8 * (3 - nSize))) % 2 ^ 32
    else getLow64 (x >>> (8 * (nSize - 3)))
  let nCompact2 := if nCompact &&& 0x00800000 ≠ 0 then nCompact >>> 8 else nCompact
  let nSize2 := if nCompact &&& 0x00800000 ≠ 0 then nSize + 1 else nSize
  nCompact2 ||| (nSize2 <<< 24)

/-- Decode-after-encode: the value retained by one pass through the lossy
compact form.  This is the re-encoding step the retargeting bounds check
applies on both sides of its comparisons. -/
def roundtripCompact (x : Nat) : Nat := (SetCompact (GetCompact x)).value

/-- Modelled from the spec: the consensus-parameter fields of
`Consensus::Params` read by the difficulty engine (the struct itself is
declared outside the modelled sources).  `powLimit` is the decoded
256-bit maximum target (`UintToArith256(params.powLimit)`); the integer
fields are the nonnegative per-network constants of section 3 of the
specification. -/
structure Params where
  powLimit : Nat
  nPowTargetSpacing : Nat
  nPowTargetTimespan : Nat
  nDifficultyAdjustmentRange : Nat
  nHeightInterval : Nat
  fPowAllowMinDifficultyBlocks : Bool
  fPowNoRetargeting : Bool
deriving DecidableEq, Repr

/-- `Consensus::Params::DifficultyAdjustmentInterval() =
nPowTargetTimespan / nPowTargetSpacing`. -/
def DifficultyAdjustmentInterval (params : Params) : Nat :=
  params.nPowTargetTimespan / params.nPowTargetSpacing

/-- The block-header view consumed by the difficulty engine: height,
timestamp (`GetBlockTime()`, a signed 64-bit count of seconds) and the
compact target `nBits`.  A chain is a list of these records, most recent
first; the tail plays the role of the `pprev` pointers. -/
structure BlockRec where
  nHeight : Nat
  nTime : Int
  nBits : Nat
deriving DecidableEq, Repr

/-- `CheckProofOfWork(hash, nBits, params)` from `src/pow.cpp`: decode
`nBits`; reject if negative, zero, overflowing, or above `powLimit`;
otherwise require `hash ≤ target` as unsigned 256-bit integers. -/
def CheckProofOfWork (hash : Nat) (nBits : Nat) (params : Params) : Bool :=
  let r := SetCompact nBits
  if r.negative = true ∨ r.value = 0 ∨ r.overflow = true ∨ r.value > params.powLimit then
    false
  else if hash > r.value then
    false
  else
    true

/-- `CalculateNextWorkRequired(pindexLast, nFirstBlockTime, params)` from
`src/pow.cpp`: clamp the actual timespan to
`[nPowTargetTimespan/4, nPowTargetTimespan*4]`, multiply the decoded
previous target by it, divide by `nPowTargetTimespan`, clamp to
`powLimit`, re-encode to compact.  The multiplication wraps modulo
`2^256` as the 256-bit type does. -/
def CalculateNextWorkRequired (pindexLast : BlockRec) (nFirstBlockTime : Int)
    (params : Params) : Nat :=
  if params.fPowNoRetargeting then pindexLast.nBits
  else
    let nActualTimespan0 : Int := pindexLast.nTime - nFirstBlockTime
    let nActualTimespan1 : Int :=
      if nActualTimespan0 < (params.nPowTargetTimespan / 4 : Nat) then
        ((params.nPowTargetTimespan / 4 : Nat) : Int)
      else nActualTimespan0
    let nActualTimespan2 : Int :=
      if nActualTimespan1 > (params.nPowTargetTimespan * 4 : Nat) then
        ((params.nPowTargetTimespan * 4 : Nat) : Int)
      else nActualTimespan1
    let bnNew0 := (SetCompact pindexLast.nBits).value
    let bnNew1 := (bnNew0 * nActualTimespan2.toNat) % 2 ^ 256
    let bnNew2 := bnNew1 / params.nPowTargetTimespan
    let bnNew3 := if bnNew2 > params.powLimit then params.powLimit else bnNew2
    GetCompact bnNew3

/-- `PermittedDifficultyTransition(params, height, old_nbits, new_nbits)`
from `src/pow.cpp`: testnet shortcut, interval-boundary bounds check
through the lossy compact re-encoding, exact-equality off boundary. -/
def PermittedDifficultyTransition (params : Params) (height : Nat)
    (old_nbits new_nbits : Nat) : Bool :=
  if params.fPowAllowMinDifficultyBlocks then true
  else if height % DifficultyAdjustmentInterval params = 0 then
    let smallest_timespan := params.nPowTargetTimespan / 4
    let largest_timespan := params.nPowTargetTimespan * 4
    let observed_new_target := (SetCompact new_nbits).value
    let largest_difficulty_target0 :=
      ((SetCompact old_nbits).value * largest_timespan) % 2 ^ 256
    let largest_difficulty_target1 :=
      largest_difficulty_target0 / params.nPowTargetTimespan
    let largest_difficulty_target2 :=
      if largest_difficulty_target1 > params.powLimit then params.powLimit
      else largest_difficulty_target1
    let maximum_new_target := (SetCompact (GetCompact largest_difficulty_target2)).value
    if maximum_new_target < observed_new_target then false
    else
      let smallest_difficulty_target0 :=
        ((SetCompact old_nbits).value * smallest_timespan) % 2 ^ 256
      let smallest_difficulty_target1 :=
        smallest_difficulty_target0 / params.nPowTargetTimespan
      let smallest_difficulty_target2 :=
        if smallest_difficulty_target1 > params.powLimit then params.powLimit
        else smallest_difficulty_target1
      let minimum_new_target := (SetCompact (GetCompact smallest_difficulty_target2)).value
      if minimum_new_target > observed_new_target then false else true
  else if old_nbits ≠ new_nbits then false else true

/-- The averaging loop of `BlockTimeVarianceAdjustment` (`src/pow.cpp`):
starting at the tip with counter `nCountBlocks = i`, fold the decoded
targets into the running weighted average
`avg ← (avg * i + target) / (i + 1)` (each 256-bit operation wrapping
modulo `2^256`), stepping to `pprev` while `i ≠ range`.  Returns the
final average together with the last visited block; `none` models the
`assert(pindex->pprev)` firing on a chain that is too short. -/
def btvaWalk (range : Nat) : List BlockRec → Nat → Nat → Option (Nat × BlockRec)
  | [], _, _ => none
  | pindex :: rest, i, avg =>
    let bnTarget := (SetCompact pindex.nBits).value
    let avg2 := if i = 1 then bnTarget else ((avg * i + bnTarget) % 2 ^ 256) / (i + 1)
    if i = range then some (avg2, pindex)
    else
      match rest with
      | [] => none
      | prev :: rest2 => btvaWalk range (prev :: rest2) (i + 1) avg2

/-- The retarget-and-clamp tail of `BlockTimeVarianceAdjustment`
(`src/pow.cpp`): clamp the actual timespan between the tip and the
oldest sampled block to `[targetTimespan/4, targetTimespan*4]` where
`targetTimespan = nDifficultyAdjustmentRange * nPowTargetSpacing`,
retarget `avg * timespan / targetTimespan`, double the `powLimit` clamp
when `(height / nHeightInterval) % 2 = 1`, clamp, re-encode. -/
def btvaFinish (params : Params) (pindexLast oldest : BlockRec) (avg : Nat) : Nat :=
  let nActualTimespan0 : Int := pindexLast.nTime - oldest.nTime
  let nTargetTimespan : Nat := params.nDifficultyAdjustmentRange * params.nPowTargetSpacing
  let nActualTimespan1 : Int :=
    if nActualTimespan0 < (nTargetTimespan / 4 : Nat) then ((nTargetTimespan / 4 : Nat) : Int)
    else nActualTimespan0
  let nActualTimespan2 : Int :=
    if nActualTimespan1 > (nTargetTimespan * 4 : Nat) then ((nTargetTimespan * 4 : Nat) : Int)
    else nActualTimespan1
  let bnNew0 := (avg * nActualTimespan2.toNat) % 2 ^ 256
  let bnNew1 := bnNew0 / nTargetTimespan
  let bnPowLimit :=
    if (pindexLast.nHeight / params.nHeightInterval) % 2 = 1 then
      (params.powLimit * 2) % 2 ^ 256
    else params.powLimit
  let bnNew2 := if bnNew1 > bnPowLimit then bnPowLimit else bnNew1
  GetCompact bnNew2

/-- `BlockTimeVarianceAdjustment(pindexLast, params)` from `src/pow.cpp`.
The chain list is the tip followed by its ancestors; the empty list is
the null `pindexLast`.  Returns `none` exactly when the internal
ancestor assertion would fire. -/
def BlockTimeVarianceAdjustment (chain : List BlockRec) (params : Params) : Option Nat :=
  match chain with
  | [] => some (GetCompact params.powLimit)
  | pindexLast :: rest =>
    if pindexLast.nHeight < params.nDifficultyAdjustmentRange then
      some (GetCompact params.powLimit)
    else if params.nDifficultyAdjustmentRange = 0 then
      some (btvaFinish params pindexLast pindexLast 0)
    else
      match btvaWalk params.nDifficultyAdjustmentRange (pindexLast :: rest) 1 0 with
      | none => none
      | some (avg, oldest) => some (btvaFinish params pindexLast oldest avg)

/-- Spec-side clamp of an actual timespan to
`[targetTimespan/4, targetTimespan*4]`, written with `min`/`max` in
exact integer arithmetic (lower bound applied first, as the code does). -/
def clampedTimespan (targetTimespan : Nat) (actual : Int) : Nat :=
  (min ((targetTimespan * 4 : Nat) : Int) (max ((targetTimespan / 4 : Nat) : Int) actual)).toNat

/-- Spec-side recurrence of claim C7: fold targets `t_i` (given most
recent first, `i = 1` first) into `avg ← (avg * i + t_i) / (i + 1)`, in
exact (non-wrapping) integer arithmetic. -/
def wavgGo : List Nat → Nat → Nat → Nat
  | [], _, avg => avg
  | t :: ts, i, avg => wavgGo ts (i + 1) (if i = 1 then t else (avg * i + t) / (i + 1))

/-- Spec-side recency-weighted mean of a list of decoded targets, most
recent first. -/
def weightedTargetAvg (targets : List Nat) : Nat := wavgGo targets 1 0

/-- Decoded target of a block header. -/
def decodedTarget (b : BlockRec) : Nat := (SetCompact b.nBits).value

/-- Verdict of a special-transaction check: success, a permanent
rejection carrying the stable reason string of `maybe_error`, or an
internal assertion firing (`assert(quorum)` in `VerifySig`). -/
inductive VerifyResult where
  | ok
  | rej (reason : String)
  | assertFail
deriving DecidableEq, Repr

/-- Modelled from the spec: the special-transaction type tag for Asset
Lock transactions (`TRANSACTION_ASSET_LOCK`, declared outside the
modelled sources; only its distinctness from the other tag matters). -/
def TRANSACTION_ASSET_LOCK : Nat := 8

/-- Modelled from the spec: the special-transaction type tag for Asset
Unlock transactions (`TRANSACTION_ASSET_UNLOCK`). -/
def TRANSACTION_ASSET_UNLOCK : Nat := 9

/-- Modelled from the spec: `OP_RETURN` (0x6a), the opcode that opens
the zero-data burn output's script. -/
def OP_RETURN : Nat := 0x6a

/-- A transaction output: a 64-bit signed amount and a script given as
its byte sequence. -/
structure CTxOut where
  nValue : Int
  scriptPubKey : List Nat
deriving DecidableEq, Repr

/-- Modelled from the spec: `CScript::IsPayToPublicKeyHash` (declared
outside the modelled sources) — the exact 25-byte
`OP_DUP OP_HASH160 <20 bytes> OP_EQUALVERIFY OP_CHECKSIG` template. -/
def isPayToPublicKeyHash (script : List Nat) : Bool :=
  decide (script.length = 25) &&
  decide (script.getD 0 0 = 0x76) && decide (script.getD 1 0 = 0xa9) &&
  decide (script.getD 2 0 = 0x14) &&
  decide (script.getD 23 0 = 0x88) && decide (script.getD 24 0 = 0xac)

/-- `CAssetLockPayload`: version, lock type and the ordered credit
outputs. -/
structure CAssetLockPayload where
  nVersion : Nat
  nType : Nat
  creditOutputs : List CTxOut
deriving DecidableEq, Repr

/-- Modelled from the spec: `CAssetLockPayload::CURRENT_VERSION` (the
single currently defined payload version, declared outside the modelled
sources). -/
def assetLockCurrentVersion : Nat := 1

/-- An Asset Lock candidate transaction: its special-type tag, its
outputs, and the result of `GetTxPayload` (`none` when the payload is
missing or malformed). -/
structure LockTx where
  nType : Nat
  vout : List CTxOut
  payload : Option CAssetLockPayload
deriving DecidableEq, Repr

/-- Outcome of the burn-output scan of `CheckAssetLockTx`: an error
reason or the accumulated return amount. -/
inductive ScanResult where
  | err (reason : String)
  | val (amount : Int)
deriving DecidableEq, Repr

/-- The output loop of `CheckAssetLockTx` (`src/evo/assetlocktx.cpp`):
skip outputs whose script is empty or does not begin with `OP_RETURN`;
reject a non-empty-data return script, a non-positive return value, or a
second return output; otherwise record the return amount. -/
def scanReturnOutputs : List CTxOut → Int → ScanResult
  | [], returnAmount => ScanResult.val returnAmount
  | txout :: rest, returnAmount =>
    if txout.scriptPubKey = [] ∨ txout.scriptPubKey.getD 0 0 ≠ OP_RETURN then
      scanReturnOutputs rest returnAmount
    else if txout.scriptPubKey.length ≠ 2 ∨ txout.scriptPubKey.getD 1 0 ≠ 0 then
      ScanResult.err ("bad-assetlocktx-non-empty-return")
    else if txout.nValue ≤ 0 then ScanResult.err ("bad-assetlocktx-zeroout-return")
    else if returnAmount ≠ 0 then ScanResult.err ("bad-assetlocktx-multiple-return")
    else scanReturnOutputs rest txout.nValue

/-- The credit-output loop of `CheckAssetLockTx`: accumulate the amounts
(the amount is added before the script check, as in the source) and
reject the first non-pay-to-pubkey-hash script. -/
def checkCreditOutputs : List CTxOut → Int → ScanResult
  | [], acc => ScanResult.val acc
  | out :: rest, acc =>
    if isPayToPublicKeyHash out.scriptPubKey = false then
      ScanResult.err ("bad-assetlocktx-pubKeyHash")
    else checkCreditOutputs rest (acc + out.nValue)

/-- `CheckAssetLockTx(tx)` from `src/evo/assetlocktx.cpp`. -/
def CheckAssetLockTx (tx : LockTx) : VerifyResult :=
  if tx.nType ≠ TRANSACTION_ASSET_LOCK then VerifyResult.rej ("bad-assetlocktx-type")
  else
    match scanReturnOutputs tx.vout 0 with
    | ScanResult.err e => VerifyResult.rej e
    | ScanResult.val returnAmount =>
      if returnAmount = 0 then VerifyResult.rej ("bad-assetlocktx-no-return")
      else
        match tx.payload with
        | none => VerifyResult.rej ("bad-assetlocktx-payload")
        | some assetLockTx =>
          if assetLockTx.nVersion = 0 ∨ assetLockTx.nVersion > assetLockCurrentVersion then
            VerifyResult.rej ("bad-assetlocktx-version")
          else if assetLockTx.nType ≠ 0 then VerifyResult.rej ("bad-assetlocktx-locktype")
          else if assetLockTx.creditOutputs = [] then
            VerifyResult.rej ("bad-assetlocktx-emptycreditoutputs")
          else
            match checkCreditOutputs assetLockTx.creditOutputs 0 with
            | ScanResult.err e => VerifyResult.rej e
            | ScanResult.val creditOutputsAmount =>
              if creditOutputsAmount ≠ returnAmount then
                VerifyResult.rej ("bad-assetlocktx-creditamount")
              else VerifyResult.ok

/-- `CAssetUnlockPayload`: version, replay-protection index, fee,
requested height, signing-quorum hash and an opaque stand-in for the
BLS signature (its bytes never influence control flow directly; only
the verification outcome, supplied by the environment, does). -/
structure CAssetUnlockPayload where
  nVersion : Nat
  index : Nat
  fee : Nat
  requestedHeight : Nat
  quorumHash : Nat
  quorumSig : Nat
deriving DecidableEq, Repr

/-- Modelled from the spec: `CAssetUnlockPayload::CURRENT_VERSION`. -/
def assetUnlockCurrentVersion : Nat := 1

/-- Modelled from the spec: `CAssetUnlockPayload::MAXIMUM_WITHDRAWALS`,
the output-count ceiling of an Asset Unlock transaction (declared
outside the modelled sources). -/
def MAXIMUM_WITHDRAWALS : Nat := 32

/-- An Asset Unlock candidate transaction: its special-type tag, its
input and output counts, and the decoded payload (`none` when
`GetTxPayload` fails). -/
structure UnlockTx where
  nType : Nat
  vinLen : Nat
  voutLen : Nat
  payload : Option CAssetUnlockPayload
deriving DecidableEq, Repr

/-- The external collaborators consumed by Asset Unlock validation, per
section 6 of the specification: whether the network configures an
asset-locks quorum type, the quorum hashes returned by
`ScanQuorums(type, tip, 2)`, whether `GetQuorum` resolves a hash,
whether `LookupBlockIndex` resolves a hash, and the outcome of the BLS
threshold-signature verification on the derived sign hash. -/
structure UnlockEnv where
  hasLLMQ : Bool
  activeQuorumHashes : List Nat
  getQuorumFound : Nat → Bool
  lookupBlockIndex : Nat → Bool
  sigOk : Bool

/-- `CAssetUnlockPayload::getHeightToExpiry()` from
`src/evo/assetlocktx.cpp`: `requestedHeight + 48`. -/
def getHeightToExpiry (payload : CAssetUnlockPayload) : Nat :=
  payload.requestedHeight + 48

/-- `CAssetUnlockPayload::VerifySig(msgHash, pindexTip)` from
`src/evo/assetlocktx.cpp`: quorum-type check, activity check against the
two most recent quorums, height window `[requestedHeight,
heightToExpiry)`, then threshold-signature verification (`assertFail`
models `assert(quorum)`). -/
def VerifySig (payload : CAssetUnlockPayload) (tipHeight : Nat) (env : UnlockEnv) :
    VerifyResult :=
  if env.hasLLMQ = false then VerifyResult.rej ("bad-assetunlock-llmq-type")
  else if (env.activeQuorumHashes.contains payload.quorumHash) = false then
    VerifyResult.rej ("bad-assetunlock-not-active-quorum")
  else if tipHeight < payload.requestedHeight ∨ tipHeight ≥ getHeightToExpiry payload then
    VerifyResult.rej ("bad-assetunlock-too-late")
  else if env.getQuorumFound payload.quorumHash = false then VerifyResult.assertFail
  else if env.sigOk then VerifyResult.ok
  else VerifyResult.rej ("bad-assetunlock-not-verified")

/-- `CheckAssetUnlockTx(tx, pindexPrev, creditPool)` from
`src/evo/assetlocktx.cpp`.  The credit pool is its consumed-index set;
the message-hash recomputation has no branch of its own and is absorbed
into the environment's signature-verification outcome. -/
def CheckAssetUnlockTx (tx : UnlockTx) (tipHeight : Nat) (creditPoolIndexes : List Nat)
    (env : UnlockEnv) : VerifyResult :=
  if tx.nType ≠ TRANSACTION_ASSET_UNLOCK then VerifyResult.rej ("bad-assetunlocktx-type")
  else if tx.vinLen ≠ 0 then VerifyResult.rej ("bad-assetunlocktx-have-input")
  else if tx.voutLen > MAXIMUM_WITHDRAWALS then
    VerifyResult.rej ("bad-assetunlocktx-too-many-outs")
  else
    match tx.payload with
    | none => VerifyResult.rej ("bad-assetunlocktx-payload")
    | some assetUnlockTx =>
      if assetUnlockTx.nVersion = 0 ∨ assetUnlockTx.nVersion > assetUnlockCurrentVersion then
        VerifyResult.rej ("bad-assetunlocktx-version")
      else if creditPoolIndexes.contains assetUnlockTx.index then
        VerifyResult.rej ("bad-assetunlock-duplicated-index")
      else if env.lookupBlockIndex assetUnlockTx.quorumHash = false then
        VerifyResult.rej ("bad-assetunlock-quorum-hash")
      else VerifySig assetUnlockTx tipHeight env

/-- Spec-side predicate: an output the burn scan does not skip (script
non-empty and beginning with `OP_RETURN`). -/
def isBurnCandidate (txout : CTxOut) : Bool :=
  !decide (txout.scriptPubKey = []) && decide (txout.scriptPubKey.getD 0 0 = OP_RETURN)

/-- Spec-side predicate of claim C10: a script that begins with
`OP_RETURN` but is not exactly the two bytes `OP_RETURN 0x00`. -/
def isMalformedReturn (txout : CTxOut) : Bool :=
  isBurnCandidate txout &&
  (decide (txout.scriptPubKey.length ≠ 2) || decide (txout.scriptPubKey.getD 1 0 ≠ 0))

/-- The well-formed zero-data burn output of value `v`. -/
def burnOutput (v : Int) : CTxOut := { nValue := v, scriptPubKey := [OP_RETURN, 0] }

/-- Spec-side sum of the amounts of a list of outputs. -/
def sumValues (outs : List CTxOut) : Int := (outs.map CTxOut.nValue).sum

/-- Claim C3: `CheckProofOfWork(hash, nBits, params)` returns true if and
only if decoding `nBits` yields a target that is not negative, not zero,
does not overflow, does not exceed `powLimit`, and `hash ≤ target` as
unsigned 256-bit integers. -/
theorem checkProofOfWork_iff (hash nBits : Nat) (params : Params) :
    CheckProofOfWork hash nBits params = true ↔
      (SetCompact nBits).negative = false ∧ (SetCompact nBits).value ≠ 0 ∧
      (SetCompact nBits).overflow = false ∧
      (SetCompact nBits).value ≤ params.powLimit ∧ hash ≤ (SetCompact nBits).value := by
  simp only [CheckProofOfWork]
  split_ifs with h1 h2
  · refine iff_of_false (by simp) ?_
    rintro ⟨a, b, c, d, e⟩
    rcases h1 with h | h | h | h
    · rw [a] at h; exact Bool.false_ne_true h
    · exact b h
    · rw [c] at h; exact Bool.false_ne_true h
    · omega
  · refine iff_of_false (by simp) ?_
    rintro ⟨a, b, c, d, e⟩
    omega
  · push_neg at h1
    obtain ⟨a, b, c, d⟩ := h1
    exact iff_of_true rfl ⟨by simpa using a, b, by simpa using c, by omega, by omega⟩

/-- Claim C5: with `fPowAllowMinDifficultyBlocks` false and a height off
the difficulty-adjustment-interval boundary,
`PermittedDifficultyTransition` accepts exactly when `newBits` equals
`oldBits`; with `fPowAllowMinDifficultyBlocks` true it accepts
unconditionally. -/
theorem permittedDifficultyTransition_offBoundary (params : Params)
    (height old_nbits new_nbits : Nat) :
    (params.fPowAllowMinDifficultyBlocks = false →
      height % DifficultyAdjustmentInterval params ≠ 0 →
      (PermittedDifficultyTransition params height old_nbits new_nbits = true ↔
        new_nbits = old_nbits)) ∧
    (params.fPowAllowMinDifficultyBlocks = true →
      PermittedDifficultyTransition params height old_nbits new_nbits = true) := by
  constructor
  · intro hmin hoff
    unfold PermittedDifficultyTransition
    simp only [hmin, Bool.false_eq_true, if_false, hoff, if_false]
    split_ifs with h
    · simp only [Bool.false_eq_true, false_iff]; omega
    · simp only [true_iff]; omega
  · intro hmin
    unfold PermittedDifficultyTransition
    simp [hmin]

/-- Witness for claim C5 at concrete inputs: off-boundary equality is
accepted, and the testnet shortcut accepts unconditionally. -/
theorem permittedDifficultyTransition_offBoundary_witness :
    PermittedDifficultyTransition ⟨2 ^ 224, 600, 1209600, 24, 10000, false, false⟩ 1 5 5 = true ∧
    PermittedDifficultyTransition ⟨2 ^ 224, 600, 1209600, 24, 10000, true, false⟩ 7 3 9 = true :=
  ⟨((permittedDifficultyTransition_offBoundary _ 1 5 5).1 rfl (by decide)).mpr rfl,
   (permittedDifficultyTransition_offBoundary _ 7 3 9).2 rfl⟩

/-- Claim C1 (amended): for an Asset Unlock transaction that passes the
structural checks preceding the credit-pool lookup (correct special-type
tag, no inputs, output count within `MAXIMUM_WITHDRAWALS`) whose payload
decodes with a valid version and whose `index` is already in the credit
pool's consumed set, `CheckAssetUnlockTx` rejects with the
duplicated-index reason, regardless of all other payload fields and of
the quorum environment. -/
theorem checkAssetUnlockTx_duplicateIndex (tx : UnlockTx) (tipHeight : Nat)
    (creditPoolIndexes : List Nat) (env : UnlockEnv) (p : CAssetUnlockPayload)
    (htype : tx.nType = TRANSACTION_ASSET_UNLOCK) (hvin : tx.vinLen = 0)
    (hvout : tx.voutLen ≤ MAXIMUM_WITHDRAWALS) (hp : tx.payload = some p)
    (hv0 : p.nVersion ≠ 0) (hv1 : p.nVersion ≤ assetUnlockCurrentVersion)
    (hidx : creditPoolIndexes.contains p.index = true) :
    CheckAssetUnlockTx tx tipHeight creditPoolIndexes env =
      VerifyResult.rej ("bad-assetunlock-duplicated-index") := by
  unfold CheckAssetUnlockTx
  rw [hp]
  simp only [htype, hvin, ne_eq, not_true_eq_false, if_false, not_false_eq_true, if_true]
  rw [if_neg (by omega), if_neg (by omega), if_pos hidx]

/-- Witness for claim C1 at a concrete transaction: index `7` is in the
pool, all other fields arbitrary, and the duplicated-index rejection is
returned. -/
theorem checkAssetUnlockTx_duplicateIndex_witness :
    CheckAssetUnlockTx ⟨TRANSACTION_ASSET_UNLOCK, 0, 3, some ⟨1, 7, 11, 100, 5, 0⟩⟩ 120 [2, 7]
        ⟨true, [5], fun _ => true, fun _ => true, true⟩ =
      VerifyResult.rej ("bad-assetunlock-duplicated-index") :=
  checkAssetUnlockTx_duplicateIndex _ _ _ _ _ rfl rfl (by decide) rfl (by decide) (by decide)
    (by decide)

/-- Counterexample to claim C1 as stated: a transaction whose payload
decodes with a valid version and an already-consumed index, but which
has an input, is rejected with the have-input reason, not the
duplicated-index reason. -/
theorem checkAssetUnlockTx_duplicateIndex_cex :
    CheckAssetUnlockTx ⟨TRANSACTION_ASSET_UNLOCK, 1, 0, some ⟨1, 7, 11, 100, 5, 0⟩⟩ 120 [7]
        ⟨true, [5], fun _ => true, fun _ => true, true⟩ =
      VerifyResult.rej ("bad-assetunlocktx-have-input") ∧
    List.contains [7] (7 : Nat) = true ∧
    VerifyResult.rej ("bad-assetunlocktx-have-input") ≠
      VerifyResult.rej ("bad-assetunlock-duplicated-index") :=
  ⟨rfl, rfl, by decide⟩

/-- Claim C2 (amended): once the quorum-type and quorum-activity checks
have passed, `VerifySig` rejects with the window (too-late) reason
exactly when the tip height is outside `[requestedHeight,
requestedHeight + 47]`; `getHeightToExpiry` is `requestedHeight + 48`. -/
theorem verifySig_heightWindow (p : CAssetUnlockPayload) (tipHeight : Nat)
    (env : UnlockEnv) (hllmq : env.hasLLMQ = true)
    (hactive : env.activeQuorumHashes.contains p.quorumHash = true) :
    (VerifySig p tipHeight env = VerifyResult.rej ("bad-assetunlock-too-late") ↔
      (tipHeight < p.requestedHeight ∨ tipHeight ≥ p.requestedHeight + 48)) ∧
    getHeightToExpiry p = p.requestedHeight + 48 := by
  refine ⟨?_, rfl⟩
  unfold VerifySig
  have h1 : ¬env.hasLLMQ = false := by rw [hllmq]; simp
  have h2 : ¬(env.activeQuorumHashes.contains p.quorumHash) = false := by rw [hactive]; simp
  rw [if_neg h1, if_neg h2]
  by_cases hw : tipHeight < p.requestedHeight ∨ tipHeight ≥ getHeightToExpiry p
  · rw [if_pos hw]
    unfold getHeightToExpiry at hw
    exact iff_of_true rfl hw
  · rw [if_neg hw]
    unfold getHeightToExpiry at hw
    refine iff_of_false ?_ hw
    split_ifs with hq hs <;> decide

/-- Witness for claim C2 at `requestedHeight = 100`: tip heights 99 and
148 reject with the window reason, tip heights 100 and 147 do not. -/
theorem verifySig_heightWindow_witness :
    VerifySig ⟨1, 7, 11, 100, 5, 0⟩ 148 ⟨true, [5], fun _ => true, fun _ => true, true⟩ =
      VerifyResult.rej ("bad-assetunlock-too-late") ∧
    VerifySig ⟨1, 7, 11, 100, 5, 0⟩ 99 ⟨true, [5], fun _ => true, fun _ => true, true⟩ =
      VerifyResult.rej ("bad-assetunlock-too-late") ∧
    VerifySig ⟨1, 7, 11, 100, 5, 0⟩ 100 ⟨true, [5], fun _ => true, fun _ => true, true⟩ ≠
      VerifyResult.rej ("bad-assetunlock-too-late") ∧
    VerifySig ⟨1, 7, 11, 100, 5, 0⟩ 147 ⟨true, [5], fun _ => true, fun _ => true, true⟩ ≠
      VerifyResult.rej ("bad-assetunlock-too-late") :=
  ⟨((verifySig_heightWindow _ 148 _ rfl (by decide)).1).mpr (by decide),
   ((verifySig_heightWindow _ 99 _ rfl (by decide)).1).mpr (by decide),
   fun h => absurd (((verifySig_heightWindow _ 100 _ rfl (by decide)).1).mp h) (by decide),
   fun h => absurd (((verifySig_heightWindow _ 147 _ rfl (by decide)).1).mp h) (by decide)⟩

/-- Counterexample to claim C2 as stated: with the quorum checks passed
and the tip height 120 inside the window `[100, 147]`, a failing
threshold-signature verification still makes `VerifySig` reject, so
rejection is not equivalent to being outside the window. -/
theorem verifySig_heightWindow_cex :
    VerifySig ⟨1, 7, 11, 100, 5, 0⟩ 120 ⟨true, [5], fun _ => true, fun _ => true, false⟩ =
      VerifyResult.rej ("bad-assetunlock-not-verified") ∧
    (100 : Nat) ≤ 120 ∧ (120 : Nat) < 100 + 48 :=
  ⟨rfl, by decide, by decide⟩

theorem isBurnCandidate_false_iff (o : CTxOut) :
    isBurnCandidate o = false ↔
      (o.scriptPubKey = [] ∨ o.scriptPubKey.getD 0 0 ≠ OP_RETURN) := by
  unfold isBurnCandidate
  by_cases h1 : o.scriptPubKey = [] <;>
    by_cases h2 : o.scriptPubKey.getD 0 0 = OP_RETURN <;> simp [h1, h2]

theorem scanReturnOutputs_none (l : List CTxOut) (acc : Int)
    (h : ∀ o ∈ l, isBurnCandidate o = false) :
    scanReturnOutputs l acc = ScanResult.val acc := by
  induction l with
  | nil => rfl
  | cons o rest ih =>
    have ho := (isBurnCandidate_false_iff o).mp (h o (by simp))
    unfold scanReturnOutputs
    rw [if_pos ho]
    exact ih fun x hx => h x (by simp [hx])

theorem scanReturnOutputs_append (l₁ l₂ : List CTxOut) (acc : Int) :
    scanReturnOutputs (l₁ ++ l₂) acc =
      match scanReturnOutputs l₁ acc with
      | ScanResult.err e => ScanResult.err e
      | ScanResult.val a => scanReturnOutputs l₂ a := by
  induction l₁ generalizing acc with
  | nil => rfl
  | cons o rest ih =>
    show scanReturnOutputs (o :: (rest ++ l₂)) acc = _
    rw [scanReturnOutputs, scanReturnOutputs]
    split_ifs with h1 h2 h3 h4
    · exact ih acc
    · rfl
    · rfl
    · rfl
    · exact ih o.nValue

theorem scanReturnOutputs_burn (rest : List CTxOut) (V : Int) (hV : 0 < V) :
    scanReturnOutputs (burnOutput V :: rest) 0 = scanReturnOutputs rest V := by
  have h3 : ¬(burnOutput V).nValue ≤ 0 := not_le_of_lt hV
  rw [scanReturnOutputs]
  rw [if_neg (by simp [burnOutput, OP_RETURN]), if_neg (by simp [burnOutput]), if_neg h3,
    if_neg (by simp)]
  rfl

theorem scanReturnOutputs_secondBurn (rest : List CTxOut) (V W : Int) (hV : V ≠ 0)
    (hW : 0 < W) :
    scanReturnOutputs (burnOutput W :: rest) V =
      ScanResult.err ("bad-assetlocktx-multiple-return") := by
  have h3 : ¬(burnOutput W).nValue ≤ 0 := not_le_of_lt hW
  rw [scanReturnOutputs]
  rw [if_neg (by simp [burnOutput, OP_RETURN]), if_neg (by simp [burnOutput]), if_neg h3,
    if_pos hV]

theorem scanReturnOutputs_malformed (o : CTxOut) (rest : List CTxOut) (acc : Int)
    (h : isMalformedReturn o = true) :
    scanReturnOutputs (o :: rest) acc =
      ScanResult.err ("bad-assetlocktx-non-empty-return") := by
  unfold isMalformedReturn isBurnCandidate at h
  simp only [Bool.and_eq_true, Bool.or_eq_true, decide_eq_true_eq, Bool.not_eq_true',
    decide_eq_false_iff_not] at h
  obtain ⟨⟨h1, h2⟩, h3⟩ := h
  unfold scanReturnOutputs
  rw [if_neg (fun hc => hc.elim h1 fun hne => hne h2), if_pos h3]

theorem scanReturnOutputs_never_val (l : List CTxOut) (acc : Int)
    (h : ∃ o ∈ l, isMalformedReturn o = true) :
    ∀ a, scanReturnOutputs l acc ≠ ScanResult.val a := by
  induction l generalizing acc with
  | nil => simp at h
  | cons o rest ih =>
    intro a
    rcases h with ⟨x, hx, hmal⟩
    rcases List.mem_cons.mp hx with hxo | hxrest
    · rw [hxo] at hmal
      rw [scanReturnOutputs_malformed o rest acc hmal]
      exact fun hc => ScanResult.noConfusion hc
    · unfold scanReturnOutputs
      split_ifs with h1 h2 h3 h4
      · exact ih acc ⟨x, hxrest, hmal⟩ a
      · exact fun hc => ScanResult.noConfusion hc
      · exact fun hc => ScanResult.noConfusion hc
      · exact fun hc => ScanResult.noConfusion hc
      · exact ih o.nValue ⟨x, hxrest, hmal⟩ a


theorem checkCreditOutputs_all (l : List CTxOut) (acc : Int)
    (h : ∀ o ∈ l, isPayToPublicKeyHash o.scriptPubKey = true) :
    checkCreditOutputs l acc = ScanResult.val (acc + sumValues l) := by
  induction l generalizing acc with
  | nil => show ScanResult.val acc = _; rw [show sumValues [] = 0 from rfl, add_zero]
  | cons o rest ih =>
    unfold checkCreditOutputs
    rw [if_neg (by rw [h o (by simp)]; simp)]
    rw [ih (acc + o.nValue) fun x hx => h x (by simp [hx])]
    show _ = ScanResult.val (acc + sumValues (o :: rest))
    have : sumValues (o :: rest) = o.nValue + sumValues rest := by
      unfold sumValues; simp
    rw [this, add_assoc]

theorem checkCreditOutputs_bad (l : List CTxOut) (acc : Int)
    (h : ∃ o ∈ l, isPayToPublicKeyHash o.scriptPubKey = false) :
    checkCreditOutputs l acc = ScanResult.err ("bad-assetlocktx-pubKeyHash") := by
  induction l generalizing acc with
  | nil => simp at h
  | cons o rest ih =>
    unfold checkCreditOutputs
    by_cases ho : isPayToPublicKeyHash o.scriptPubKey = false
    · rw [if_pos ho]
    · rw [if_neg ho]
      rcases h with ⟨x, hx, hbad⟩
      rcases List.mem_cons.mp hx with hxo | hxrest
      · rw [hxo] at hbad; exact absurd hbad ho
      · exact ih (acc + o.nValue) ⟨x, hxrest, hbad⟩

/-- Claim C9: for an Asset-Lock transaction with exactly one well-formed
burn output of positive value `V` (all other outputs not burn
candidates) and a decodable payload with valid version, zero lock type
and non-empty credit outputs, `CheckAssetLockTx` accepts if and only if
every credit output is pay-to-pubkey-hash and the credit amounts sum
exactly to `V`; and with two well-formed positive burn outputs it
rejects with the multiple-return reason. -/
theorem checkAssetLockTx_claim :
    (∀ (tx : LockTx) (p : CAssetLockPayload) (V : Int) (pre post : List CTxOut),
      tx.nType = TRANSACTION_ASSET_LOCK →
      tx.vout = pre ++ burnOutput V :: post →
      (∀ o ∈ pre, isBurnCandidate o = false) →
      (∀ o ∈ post, isBurnCandidate o = false) →
      0 < V →
      tx.payload = some p →
      p.nVersion ≠ 0 → p.nVersion ≤ assetLockCurrentVersion → p.nType = 0 →
      p.creditOutputs ≠ [] →
      (CheckAssetLockTx tx = VerifyResult.ok ↔
        (∀ o ∈ p.creditOutputs, isPayToPublicKeyHash o.scriptPubKey = true) ∧
        sumValues p.creditOutputs = V)) ∧
    (∀ (tx : LockTx) (V W : Int) (pre mid post : List CTxOut),
      tx.nType = TRANSACTION_ASSET_LOCK →
      tx.vout = pre ++ burnOutput V :: (mid ++ burnOutput W :: post) →
      (∀ o ∈ pre, isBurnCandidate o = false) →
      (∀ o ∈ mid, isBurnCandidate o = false) →
      0 < V → 0 < W →
      CheckAssetLockTx tx = VerifyResult.rej ("bad-assetlocktx-multiple-return")) := by
  constructor
  · intro tx p V pre post htype hvout hpre hpost hV hp hv0 hv1 hptype hcredits
    unfold CheckAssetLockTx
    rw [if_neg (by rw [htype]; simp), hvout, scanReturnOutputs_append,
      scanReturnOutputs_none pre 0 hpre]
    dsimp only
    rw [scanReturnOutputs_burn post V hV, scanReturnOutputs_none post V hpost]
    dsimp only
    rw [if_neg (by omega), hp]
    dsimp only
    simp only [assetLockCurrentVersion] at hv1
    rw [if_neg (by simp only [assetLockCurrentVersion]; omega),
      if_neg (by simp [hptype]), if_neg hcredits]
    by_cases hall : ∀ o ∈ p.creditOutputs, isPayToPublicKeyHash o.scriptPubKey = true
    · rw [checkCreditOutputs_all _ _ hall]
      dsimp only
      rw [zero_add]
      split_ifs with hsum
      · exact iff_of_false (by decide) (fun hc => hsum hc.2)
      · exact iff_of_true rfl ⟨hall, by omega⟩
    · push_neg at hall
      obtain ⟨o, ho, hbad⟩ := hall
      rw [checkCreditOutputs_bad _ _ ⟨o, ho, by simpa using hbad⟩]
      dsimp only
      exact iff_of_false (by decide) (fun hc => hbad (hc.1 o ho))
  · intro tx V W pre mid post htype hvout hpre hmid hV hW
    unfold CheckAssetLockTx
    rw [if_neg (by rw [htype]; simp), hvout, scanReturnOutputs_append,
      scanReturnOutputs_none pre 0 hpre]
    dsimp only
    rw [scanReturnOutputs_burn _ V hV, scanReturnOutputs_append,
      scanReturnOutputs_none mid V hmid]
    dsimp only
    rw [scanReturnOutputs_secondBurn post V W (by omega) hW]

/-- Witness for claim C9: a concrete asset-lock transaction with one
burn output of value 5 and a single pay-to-pubkey-hash credit output of
value 5 is accepted. -/
theorem checkAssetLockTx_claim_witness :
    CheckAssetLockTx
      ⟨TRANSACTION_ASSET_LOCK, [burnOutput 5],
        some ⟨1, 0, [⟨5, 0x76 :: 0xa9 :: 0x14 :: (List.replicate 20 0 ++ [0x88, 0xac])⟩]⟩⟩ =
      VerifyResult.ok :=
  (checkAssetLockTx_claim.1 _ _ 5 [] [] rfl rfl (by simp) (by simp) (by decide) rfl
    (by decide) (by decide) rfl (by decide)).mpr ⟨by decide, by decide⟩

/-- Claim C10 (amended): an Asset-Lock-type transaction containing an
output whose script begins with `OP_RETURN` but is not exactly two bytes
with a zero second byte is always rejected; the reason is
`bad-assetlocktx-non-empty-return` whenever the outputs preceding it
scan cleanly (in particular when another well-formed burn output
precedes or follows it), while an earlier independently failing output
yields that earlier error instead. -/
theorem checkAssetLockTx_malformedReturn :
    (∀ (tx : LockTx) (o : CTxOut),
      tx.nType = TRANSACTION_ASSET_LOCK →
      o ∈ tx.vout → isMalformedReturn o = true →
      CheckAssetLockTx tx ≠ VerifyResult.ok) ∧
    (∀ (tx : LockTx) (o : CTxOut) (pre post : List CTxOut) (acc : Int),
      tx.nType = TRANSACTION_ASSET_LOCK →
      tx.vout = pre ++ o :: post → isMalformedReturn o = true →
      scanReturnOutputs pre 0 = ScanResult.val acc →
      CheckAssetLockTx tx = VerifyResult.rej ("bad-assetlocktx-non-empty-return")) := by
  constructor
  · intro tx o htype ho hmal
    unfold CheckAssetLockTx
    rw [if_neg (by rw [htype]; simp)]
    cases hscan : scanReturnOutputs tx.vout 0 with
    | err e => exact fun hc => VerifyResult.noConfusion hc
    | val a => exact absurd hscan (scanReturnOutputs_never_val tx.vout 0 ⟨o, ho, hmal⟩ a)
  · intro tx o pre post acc htype hvout hmal hpre
    unfold CheckAssetLockTx
    rw [if_neg (by rw [htype]; simp), hvout, scanReturnOutputs_append, hpre]
    dsimp only
    rw [scanReturnOutputs_malformed o post acc hmal]

/-- Witness for claim C10: a transaction with a well-formed burn output
of value 5 followed by a three-byte `OP_RETURN` script is rejected with
the non-empty-return reason — the malformed output is not skipped even
though a valid burn output is present. -/
theorem checkAssetLockTx_malformedReturn_witness :
    CheckAssetLockTx
      ⟨TRANSACTION_ASSET_LOCK, [burnOutput 5, ⟨1, [OP_RETURN, 1, 1]⟩], none⟩ =
      VerifyResult.rej ("bad-assetlocktx-non-empty-return") :=
  checkAssetLockTx_malformedReturn.2 _ ⟨1, [OP_RETURN, 1, 1]⟩ [burnOutput 5] [] 5 rfl rfl
    (by decide) (by decide)

/-- Counterexample to claim C10 as stated: a transaction whose first
output is a zero-valued well-formed burn output and whose second output
is a malformed `OP_RETURN` output is rejected with the zeroout-return
reason, not the non-empty-return reason the claim names. -/
theorem checkAssetLockTx_malformedReturn_cex :
    CheckAssetLockTx
      ⟨TRANSACTION_ASSET_LOCK, [⟨0, [OP_RETURN, 0]⟩, ⟨1, [OP_RETURN, 1]⟩], none⟩ =
      VerifyResult.rej ("bad-assetlocktx-zeroout-return") ∧
    isMalformedReturn ⟨1, [OP_RETURN, 1]⟩ = true ∧
    VerifyResult.rej ("bad-assetlocktx-zeroout-return") ≠
      VerifyResult.rej ("bad-assetlocktx-non-empty-return") :=
  ⟨by decide, by decide, by decide⟩

theorem bitlenAux_eq (fuel : Nat) : ∀ x : Nat, x < 2 ^ fuel →
    bitlenAux fuel x = if x = 0 then 0 else Nat.log2 x + 1 := by
  induction fuel with
  | zero =>
    intro x h
    interval_cases x
    rfl
  | succ f ih =>
    intro x h
    unfold bitlenAux
    by_cases h0 : x = 0
    · simp [h0]
    · rw [if_neg h0, if_neg h0]
      have hdiv : x / 2 < 2 ^ f := by
        rw [Nat.div_lt_iff_lt_mul (by omega)]
        calc x < 2 ^ (f + 1) := h
          _ = 2 ^ f * 2 := by ring
      rw [ih (x / 2) hdiv]
      by_cases h1 : x / 2 = 0
      · have hx1 : x = 1 := by omega
        subst hx1
        have : Nat.log2 1 = 0 := by rw [Nat.log2]; norm_num
        rw [this, h1, if_pos rfl]
      · rw [if_neg h1]
        have hx2 : x ≥ 2 := by omega
        have hlog : Nat.log2 x = Nat.log2 (x / 2) + 1 := by
          conv_lhs => rw [Nat.log2]
          rw [if_pos hx2]
        omega

theorem bits_eq (x : Nat) (h : x < 2 ^ 256) :
    bits x = if x = 0 then 0 else Nat.log2 x + 1 := bitlenAux_eq 256 x h

theorem lt_pow_mul_pow {x a : Nat} (k m : Nat) (h1 : x < 2 ^ a) (h2 : a + k ≤ m) :
    x * 2 ^ k < 2 ^ m := by
  calc x * 2 ^ k < 2 ^ a * 2 ^ k := by
        exact Nat.mul_lt_mul_of_lt_of_le h1 (le_refl _) (Nat.pos_pow_of_pos k (by omega))
    _ = 2 ^ (a + k) := by rw [pow_add]
    _ ≤ 2 ^ m := Nat.pow_le_pow_right (by omega) h2

theorem pow_le_div_pow {x a : Nat} (k m : Nat) (h1 : 2 ^ a ≤ x) (h2 : k + m ≤ a) :
    2 ^ m ≤ x / 2 ^ k := by
  rw [Nat.le_div_iff_mul_le (Nat.pos_pow_of_pos k (by omega))]
  calc 2 ^ m * 2 ^ k = 2 ^ (m + k) := by rw [pow_add]
    _ ≤ 2 ^ a := Nat.pow_le_pow_right (by omega) (by omega)
    _ ≤ x := h1

theorem div_pow_lt_pow {x a : Nat} (k m : Nat) (h1 : x < 2 ^ a) (h2 : a ≤ k + m) :
    x / 2 ^ k < 2 ^ m := by
  rw [Nat.div_lt_iff_lt_mul (Nat.pos_pow_of_pos k (by omega))]
  calc x < 2 ^ a := h1
    _ ≤ 2 ^ (m + k) := Nat.pow_le_pow_right (by omega) (by omega)
    _ = 2 ^ m * 2 ^ k := by rw [pow_add]

theorem lor_split (m s : Nat) (hm : m < 2 ^ 24) :
    m ||| (s <<< 24) = 2 ^ 24 * s + m := by
  rw [Nat.shiftLeft_eq, Nat.mul_comm s (2 ^ 24), Nat.or_comm,
    ← Nat.mul_add_lt_is_or hm s]

theorem split_shiftRight (m s : Nat) (hm : m < 2 ^ 24) :
    (2 ^ 24 * s + m) >>> 24 = s := by
  rw [Nat.shiftRight_eq_div_pow, Nat.mul_add_div (by positivity),
    Nat.div_eq_of_lt hm, Nat.add_zero]

theorem split_word (m s : Nat) (hm : m < 2 ^ 23) :
    (2 ^ 24 * s + m) &&& 0x007fffff = m := by
  have h23 : (0x007fffff : Nat) = 2 ^ 23 - 1 := by norm_num
  rw [h23, Nat.and_pow_two_sub_one_eq_mod]
  have h24 : (2 : Nat) ^ 24 * s = 2 ^ 23 * (2 * s) := by ring
  rw [h24, Nat.mul_add_mod, Nat.mod_eq_of_lt hm]

theorem and_signbit_of_lt (m : Nat) (h : m < 2 ^ 23) : m &&& 0x00800000 = 0 := by
  have h23 : (0x00800000 : Nat) = 2 ^ 23 := by norm_num
  rw [h23, Nat.and_two_pow, Nat.testBit_lt_two_pow h]
  rfl

theorem split_signbit (m s : Nat) (hm : m < 2 ^ 23) :
    (2 ^ 24 * s + m) &&& 0x00800000 = 0 := by
  have h23 : (0x00800000 : Nat) = 2 ^ 23 := by norm_num
  rw [h23, Nat.and_two_pow]
  have hb : (2 ^ 24 * s + m).testBit 23 = false := by
    rw [Nat.testBit_mul_pow_two_add s (lt_trans hm (by norm_num)) 23]
    rw [if_pos (by norm_num)]
    exact Nat.testBit_lt_two_pow hm
  rw [hb]
  rfl

theorem and_signbit_of_range (m : Nat) (h1 : 2 ^ 23 ≤ m) (h2 : m < 2 ^ 24) :
    m &&& 0x00800000 ≠ 0 := by
  have h23 : (0x00800000 : Nat) = 2 ^ 23 := by norm_num
  rw [h23, Nat.and_two_pow]
  have hb : m.testBit 23 = true := by
    rw [Nat.testBit_to_div_mod]
    have e1 : (2 : Nat) ^ 23 = 8388608 := by norm_num
    have e2 : (2 : Nat) ^ 24 = 16777216 := by norm_num
    rw [e1] at h1
    rw [e2] at h2
    have : m / 2 ^ 23 = 1 := by
      rw [e1]
      omega
    rw [this]
    rfl
  rw [hb]
  norm_num

theorem SetCompact_split (m s : Nat) (hm : m < 2 ^ 23) :
    (SetCompact (m ||| (s <<< 24))).value =
      if s ≤ 3 then m >>> (8 * (3 - s)) else (m <<< (8 * (s - 3))) % 2 ^ 256 := by
  have hm24 : m < 2 ^ 24 := lt_trans hm (by norm_num)
  simp only [SetCompact]
  rw [lor_split m s hm24, split_shiftRight m s hm24, split_word m s hm]

theorem roundtripCompact_spec (x : Nat) (hx : 0 < x) (hx256 : x < 2 ^ 256) :
    ∃ s : Nat, 2 ^ s ≤ x ∧ roundtripCompact x = x / 2 ^ s * 2 ^ s := by
  have hbx : bits x = Nat.log2 x + 1 := by
    rw [bits_eq x hx256, if_neg (by omega)]
  have hb1 : 2 ^ Nat.log2 x ≤ x := Nat.log2_self_le (by omega)
  have hb2 : x < 2 ^ (Nat.log2 x + 1) := Nat.lt_log2_self
  unfold roundtripCompact
  simp only [GetCompact]
  by_cases hsz : (bits x + 7) / 8 ≤ 3
  · -- small values: at most three mantissa bytes
    rw [if_pos hsz]
    have hx24 : x < 2 ^ 24 :=
      lt_of_lt_of_le hb2 (Nat.pow_le_pow_right (by omega) (by omega))
    have hlow : getLow64 x = x := Nat.mod_eq_of_lt (lt_of_lt_of_le hx24 (by norm_num))
    have hm0lt : x * 2 ^ (8 * (3 - (bits x + 7) / 8)) < 2 ^ 24 :=
      lt_pow_mul_pow _ 24 hb2 (by omega)
    have hm0eq : (getLow64 x <<< (8 * (3 - (bits x + 7) / 8))) % 2 ^ 32 =
        x * 2 ^ (8 * (3 - (bits x + 7) / 8)) := by
      rw [hlow, Nat.shiftLeft_eq,
        Nat.mod_eq_of_lt (lt_of_lt_of_le hm0lt (by norm_num))]
    rw [hm0eq]
    by_cases hsign : x * 2 ^ (8 * (3 - (bits x + 7) / 8)) < 2 ^ 23
    · rw [and_signbit_of_lt _ hsign]
      rw [if_neg (by omega), if_neg (by omega)]
      rw [SetCompact_split _ _ hsign, if_pos hsz]
      refine ⟨0, by simpa using hx, ?_⟩
      rw [Nat.shiftRight_eq_div_pow,
        Nat.mul_div_cancel x (Nat.pos_pow_of_pos _ (by omega))]
      simp
    · push_neg at hsign
      rw [if_pos (and_signbit_of_range _ hsign hm0lt),
        if_pos (and_signbit_of_range _ hsign hm0lt)]
      have hm1lt : (x * 2 ^ (8 * (3 - (bits x + 7) / 8))) >>> 8 < 2 ^ 23 := by
        rw [Nat.shiftRight_eq_div_pow]
        exact lt_trans (div_pow_lt_pow 8 16 hm0lt (by omega)) (by norm_num)
      rw [SetCompact_split _ _ hm1lt]
      by_cases hsz2 : (bits x + 7) / 8 + 1 ≤ 3
      · rw [if_pos hsz2]
        refine ⟨0, by simpa using hx, ?_⟩
        rw [Nat.shiftRight_eq_div_pow, Nat.shiftRight_eq_div_pow,
          Nat.div_div_eq_div_mul, ← pow_add]
        have he : 8 + 8 * (3 - ((bits x + 7) / 8 + 1)) = 8 * (3 - (bits x + 7) / 8) := by
          omega
        rw [he, Nat.mul_div_cancel x (Nat.pos_pow_of_pos _ (by omega))]
        simp
      · rw [if_neg hsz2]
        have hk0 : 8 * (3 - (bits x + 7) / 8) = 0 := by omega
        have hk8 : 8 * ((bits x + 7) / 8 + 1 - 3) = 8 := by omega
        have hxge : 2 ^ 23 ≤ x := by
          rw [hk0, pow_zero, mul_one] at hsign
          exact hsign
        rw [hk0, hk8, pow_zero, mul_one]
        refine ⟨8, ?_, ?_⟩
        · calc (2 : Nat) ^ 8 ≤ 2 ^ 23 := by norm_num
            _ ≤ x := hxge
        · rw [Nat.shiftRight_eq_div_pow, Nat.shiftLeft_eq,
            Nat.mod_eq_of_lt (lt_of_le_of_lt (Nat.div_mul_le_self x (2 ^ 8)) hx256)]
  · -- large values: shift down to the top three bytes
    rw [if_neg hsz]
    have hble : 24 ≤ Nat.log2 x := by omega
    have hlow2 : getLow64 (x >>> (8 * ((bits x + 7) / 8 - 3))) =
        x / 2 ^ (8 * ((bits x + 7) / 8 - 3)) := by
      unfold getLow64
      rw [Nat.shiftRight_eq_div_pow]
      exact Nat.mod_eq_of_lt
        (lt_of_lt_of_le (div_pow_lt_pow _ 24 hb2 (by omega)) (by norm_num))
    rw [hlow2]
    have hm0lt : x / 2 ^ (8 * ((bits x + 7) / 8 - 3)) < 2 ^ 24 :=
      div_pow_lt_pow _ 24 hb2 (by omega)
    by_cases hsign : x / 2 ^ (8 * ((bits x + 7) / 8 - 3)) < 2 ^ 23
    · rw [and_signbit_of_lt _ hsign]
      rw [if_neg (by omega), if_neg (by omega)]
      rw [SetCompact_split _ _ hsign, if_neg hsz]
      refine ⟨8 * ((bits x + 7) / 8 - 3), ?_, ?_⟩
      · calc (2 : Nat) ^ (8 * ((bits x + 7) / 8 - 3)) ≤ 2 ^ Nat.log2 x :=
            Nat.pow_le_pow_right (by omega) (by omega)
          _ ≤ x := hb1
      · rw [Nat.shiftLeft_eq,
          Nat.mod_eq_of_lt (lt_of_le_of_lt (Nat.div_mul_le_self _ _) hx256)]
    · push_neg at hsign
      rw [if_pos (and_signbit_of_range _ hsign hm0lt),
        if_pos (and_signbit_of_range _ hsign hm0lt)]
      have hm1lt : (x / 2 ^ (8 * ((bits x + 7) / 8 - 3))) >>> 8 < 2 ^ 23 := by
        rw [Nat.shiftRight_eq_div_pow]
        exact lt_trans (div_pow_lt_pow 8 16 hm0lt (by omega)) (by norm_num)
      rw [SetCompact_split _ _ hm1lt]
      rw [if_neg (by omega)]
      have hm1 : (x / 2 ^ (8 * ((bits x + 7) / 8 - 3))) >>> 8 =
          x / 2 ^ (8 * ((bits x + 7) / 8 - 3) + 8) := by
        rw [Nat.shiftRight_eq_div_pow, Nat.div_div_eq_div_mul, ← pow_add]
      have he : 8 * ((bits x + 7) / 8 + 1 - 3) = 8 * ((bits x + 7) / 8 - 3) + 8 := by
        omega
      rw [hm1, he]
      refine ⟨8 * ((bits x + 7) / 8 - 3) + 8, ?_, ?_⟩
      · have hmul : 2 ^ 23 * 2 ^ (8 * ((bits x + 7) / 8 - 3)) ≤ x :=
          (Nat.le_div_iff_mul_le (Nat.pos_pow_of_pos _ (by omega))).mp hsign
        calc (2 : Nat) ^ (8 * ((bits x + 7) / 8 - 3) + 8)
            ≤ 2 ^ (8 * ((bits x + 7) / 8 - 3) + 23) :=
              Nat.pow_le_pow_right (by omega) (by omega)
          _ = 2 ^ 23 * 2 ^ (8 * ((bits x + 7) / 8 - 3)) := by
              rw [← pow_add]; ring_nf
          _ ≤ x := hmul
      · rw [Nat.shiftLeft_eq,
          Nat.mod_eq_of_lt (lt_of_le_of_lt (Nat.div_mul_le_self _ _) hx256)]

theorem le_two_mul_roundtripCompact (x : Nat) (hx : 0 < x) (hx256 : x < 2 ^ 256) :
    x ≤ 2 * roundtripCompact x := by
  obtain ⟨s, h1, h2⟩ := roundtripCompact_spec x hx hx256
  rw [h2]
  have hp : 0 < 2 ^ s := Nat.pos_pow_of_pos s (by omega)
  have hq : 0 < x / 2 ^ s := (Nat.one_le_div_iff hp).mpr h1
  have hmod : x % 2 ^ s < 2 ^ s := Nat.mod_lt x hp
  have hps : 2 ^ s ≤ 2 ^ s * (x / 2 ^ s) := Nat.le_mul_of_pos_right _ hq
  calc x = 2 ^ s * (x / 2 ^ s) + x % 2 ^ s := (Nat.div_add_mod x (2 ^ s)).symm
    _ ≤ 2 ^ s * (x / 2 ^ s) + 2 ^ s := Nat.add_le_add_left (le_of_lt hmod) _
    _ ≤ 2 ^ s * (x / 2 ^ s) + 2 ^ s * (x / 2 ^ s) := Nat.add_le_add_left hps _
    _ = 2 * (x / 2 ^ s * 2 ^ s) := by ring

theorem clamp_hi_eq_min (a b : Nat) : (if a > b then b else a) = min b a := by
  split_ifs with h <;> omega

theorem clampedTimespan_eq (T : Nat) (a : Int) :
    (if (if a < ((T / 4 : Nat) : Int) then ((T / 4 : Nat) : Int) else a) >
        ((T * 4 : Nat) : Int) then ((T * 4 : Nat) : Int)
     else if a < ((T / 4 : Nat) : Int) then ((T / 4 : Nat) : Int) else a).toNat =
      clampedTimespan T a := by
  unfold clampedTimespan
  congr 1
  split_ifs with h1 h2 h3 <;> omega

theorem clampedTimespan_le (T : Nat) (a : Int) : clampedTimespan T a ≤ T * 4 := by
  unfold clampedTimespan
  omega

/-- Claim C4: at an interval boundary with the testnet shortcut off,
`PermittedDifficultyTransition` accepts exactly when the decoded
`newBits` lies inclusively between the minimum and maximum permitted
targets, each obtained by multiplying the decoded `oldBits` by the
clamped timespan bound (`nPowTargetTimespan*4` for the maximum,
`nPowTargetTimespan/4` for the minimum), dividing by
`nPowTargetTimespan`, clamping to `powLimit`, and re-encoding through
the lossy compact form before the comparison; and when `oldBits` is
`powLimit`'s compact form the maximum clamps to `powLimit` exactly. -/
theorem permittedDifficultyTransition_boundary (params : Params)
    (height old_nbits new_nbits : Nat)
    (hmin : params.fPowAllowMinDifficultyBlocks = false)
    (hbound : height % DifficultyAdjustmentInterval params = 0)
    (hT : 0 < params.nPowTargetTimespan)
    (hov : (SetCompact old_nbits).value * (params.nPowTargetTimespan * 4) < 2 ^ 256) :
    (PermittedDifficultyTransition params height old_nbits new_nbits = true ↔
      (roundtripCompact (min params.powLimit
          ((SetCompact old_nbits).value * (params.nPowTargetTimespan / 4) /
            params.nPowTargetTimespan)) ≤ (SetCompact new_nbits).value ∧
       (SetCompact new_nbits).value ≤ roundtripCompact (min params.powLimit
          ((SetCompact old_nbits).value * (params.nPowTargetTimespan * 4) /
            params.nPowTargetTimespan)))) ∧
    (old_nbits = GetCompact params.powLimit → 0 < params.powLimit →
      params.powLimit < 2 ^ 256 →
      min params.powLimit
        ((SetCompact old_nbits).value * (params.nPowTargetTimespan * 4) /
          params.nPowTargetTimespan) = params.powLimit) := by
  constructor
  · simp only [PermittedDifficultyTransition, roundtripCompact]
    rw [if_neg (by rw [hmin]; simp), if_pos hbound]
    have hov2 : (SetCompact old_nbits).value * (params.nPowTargetTimespan / 4) < 2 ^ 256 :=
      lt_of_le_of_lt
        (Nat.mul_le_mul_left _ (by omega)) hov
    rw [Nat.mod_eq_of_lt hov, Nat.mod_eq_of_lt hov2, clamp_hi_eq_min, clamp_hi_eq_min]
    split_ifs with h1 h2
    · exact iff_of_false (by simp) (fun hc => by omega)
    · exact iff_of_false (by simp) (fun hc => by omega)
    · exact iff_of_true rfl ⟨by omega, by omega⟩
  · intro hold hpl hpl256
    rw [hold]
    have hR : params.powLimit ≤ 2 * roundtripCompact params.powLimit :=
      le_two_mul_roundtripCompact params.powLimit hpl hpl256
    have hmul : (SetCompact (GetCompact params.powLimit)).value *
        (params.nPowTargetTimespan * 4) =
        roundtripCompact params.powLimit * 4 * params.nPowTargetTimespan := by
      unfold roundtripCompact
      ring
    rw [hmul, Nat.mul_div_cancel _ hT]
    have : params.powLimit ≤ roundtripCompact params.powLimit * 4 := by omega
    omega

set_option maxRecDepth 100000 in
set_option maxHeartbeats 2000000 in
/-- Witness for claim C4 at a Bitcoin-style `powLimit` with compact form
`0x1d00ffff`: the transition from `powLimit`'s compact form to itself at
a boundary height is permitted, and the maximum bound clamps to
`powLimit` exactly. -/
theorem permittedDifficultyTransition_boundary_witness :
    PermittedDifficultyTransition ⟨0xffff * 2 ^ 208, 600, 1209600, 24, 10000, false, false⟩
        4032 (GetCompact (0xffff * 2 ^ 208)) (GetCompact (0xffff * 2 ^ 208)) = true ∧
    min ((0xffff : Nat) * 2 ^ 208)
        ((SetCompact (GetCompact (0xffff * 2 ^ 208))).value * (1209600 * 4) / 1209600) =
      0xffff * 2 ^ 208 :=
  ⟨((permittedDifficultyTransition_boundary
      ⟨0xffff * 2 ^ 208, 600, 1209600, 24, 10000, false, false⟩ 4032
      (GetCompact (0xffff * 2 ^ 208)) (GetCompact (0xffff * 2 ^ 208)) rfl (by decide)
      (by decide) (by decide)).1).mpr ⟨by decide, by decide⟩,
   (permittedDifficultyTransition_boundary
      ⟨0xffff * 2 ^ 208, 600, 1209600, 24, 10000, false, false⟩ 4032
      (GetCompact (0xffff * 2 ^ 208)) (GetCompact (0xffff * 2 ^ 208)) rfl (by decide)
      (by decide) (by decide)).2 rfl (by decide) (by decide)⟩

/-- Claim C6: with retargeting on, `CalculateNextWorkRequired` returns
the compact encoding of
`min(powLimit, decode(oldBits) * clampedTimespan / nPowTargetTimespan)`
with the timespan clamped to `[nPowTargetTimespan/4,
nPowTargetTimespan*4]` and the multiplication performed before the
division; when the actual timespan is exactly half the target timespan
(and no clamp triggers), the result is the compact encoding of exactly
half the decoded previous target. -/
theorem calculateNextWorkRequired_claim (pindexLast : BlockRec) (nFirstBlockTime : Int)
    (params : Params)
    (hnr : params.fPowNoRetargeting = false)
    (hT : 0 < params.nPowTargetTimespan)
    (hov : (SetCompact pindexLast.nBits).value * (params.nPowTargetTimespan * 4) < 2 ^ 256) :
    (CalculateNextWorkRequired pindexLast nFirstBlockTime params =
      GetCompact (min params.powLimit
        ((SetCompact pindexLast.nBits).value *
          clampedTimespan params.nPowTargetTimespan (pindexLast.nTime - nFirstBlockTime) /
          params.nPowTargetTimespan))) ∧
    (pindexLast.nTime - nFirstBlockTime = ((params.nPowTargetTimespan / 2 : Nat) : Int) →
      2 ∣ params.nPowTargetTimespan →
      (SetCompact pindexLast.nBits).value / 2 ≤ params.powLimit →
      CalculateNextWorkRequired pindexLast nFirstBlockTime params =
        GetCompact ((SetCompact pindexLast.nBits).value / 2)) := by
  have hmain : CalculateNextWorkRequired pindexLast nFirstBlockTime params =
      GetCompact (min params.powLimit
        ((SetCompact pindexLast.nBits).value *
          clampedTimespan params.nPowTargetTimespan (pindexLast.nTime - nFirstBlockTime) /
          params.nPowTargetTimespan)) := by
    simp only [CalculateNextWorkRequired]
    rw [if_neg (by rw [hnr]; simp)]
    rw [clampedTimespan_eq]
    rw [Nat.mod_eq_of_lt (lt_of_le_of_lt
      (Nat.mul_le_mul_left _ (clampedTimespan_le _ _)) hov)]
    rw [clamp_hi_eq_min]
  refine ⟨hmain, ?_⟩
  intro ht hdvd hle
  rw [hmain, ht]
  have hct : clampedTimespan params.nPowTargetTimespan
      ((params.nPowTargetTimespan / 2 : Nat) : Int) = params.nPowTargetTimespan / 2 := by
    unfold clampedTimespan
    omega
  rw [hct]
  obtain ⟨k, hk⟩ := hdvd
  have hk0 : 0 < k := by omega
  have hhalf : (SetCompact pindexLast.nBits).value * (params.nPowTargetTimespan / 2) /
      params.nPowTargetTimespan = (SetCompact pindexLast.nBits).value / 2 := by
    rw [hk]
    have h2k : 2 * k / 2 = k := by omega
    rw [h2k]
    exact Nat.mul_div_mul_right _ 2 hk0
  rw [hhalf, Nat.min_eq_right hle]

set_option maxRecDepth 100000 in
set_option maxHeartbeats 2000000 in
/-- Witness for claim C6: interval length 10, spacing 600s, previous
target `2^220`, actual timespan 3000s = half of the 6000s target
timespan — the returned target is the compact form of `2^219`, half the
previous target. -/
theorem calculateNextWorkRequired_claim_witness :
    CalculateNextWorkRequired ⟨100, 3000, GetCompact (2 ^ 220)⟩ 0
        ⟨2 ^ 224, 600, 6000, 10, 10000, false, false⟩ =
      GetCompact ((SetCompact (GetCompact (2 ^ 220))).value / 2) :=
  (calculateNextWorkRequired_claim ⟨100, 3000, GetCompact (2 ^ 220)⟩ 0
      ⟨2 ^ 224, 600, 6000, 10, 10000, false, false⟩ rfl (by decide) (by decide)).2
    (by decide) (by decide) (by decide)

theorem btvaWalk_cons (range : Nat) (b : BlockRec) (rest : List BlockRec) (i avg : Nat) :
    btvaWalk range (b :: rest) i avg =
      if i = range then
        some ((if i = 1 then (SetCompact b.nBits).value
          else ((avg * i + (SetCompact b.nBits).value) % 2 ^ 256) / (i + 1)), b)
      else
        match rest with
        | [] => none
        | prev :: rest2 => btvaWalk range (prev :: rest2) (i + 1)
            (if i = 1 then (SetCompact b.nBits).value
             else ((avg * i + (SetCompact b.nBits).value) % 2 ^ 256) / (i + 1)) := by
  rw [btvaWalk.eq_def]

theorem wavgGo_nil (i avg : Nat) : wavgGo [] i avg = avg := rfl

theorem wavgGo_cons (t : Nat) (ts : List Nat) (i avg : Nat) :
    wavgGo (t :: ts) i avg =
      wavgGo ts (i + 1) (if i = 1 then t else (avg * i + t) / (i + 1)) := rfl

theorem decodedTarget_eq (b : BlockRec) : decodedTarget b = (SetCompact b.nBits).value := rfl

theorem btvaWalk_spec (range B : Nat) (hB : B * (range + 1) < 2 ^ 256) :
    ∀ (k : Nat) (blocks : List BlockRec) (i avg : Nat),
      1 ≤ i → i + k = range → k < blocks.length → avg ≤ B →
      (∀ b ∈ blocks.take (k + 1), (SetCompact b.nBits).value ≤ B) →
      btvaWalk range blocks i avg =
        some (wavgGo ((blocks.take (k + 1)).map decodedTarget) i avg,
          blocks.getD k ⟨0, 0, 0⟩) := by
  intro k
  induction k with
  | zero =>
    intro blocks i avg h1 h2 h3 havg htg
    cases blocks with
    | nil => simp at h3
    | cons b rest =>
      have htb : (SetCompact b.nBits).value ≤ B := by
        apply htg b
        rw [List.take_succ_cons]
        exact List.mem_cons_self b _
      have hsum : avg * i + (SetCompact b.nBits).value ≤ B * (i + 1) := by
        calc avg * i + (SetCompact b.nBits).value ≤ B * i + B :=
            Nat.add_le_add (Nat.mul_le_mul_right i havg) htb
          _ = B * (i + 1) := by ring
      have hstep : (avg * i + (SetCompact b.nBits).value) % 2 ^ 256 =
          avg * i + (SetCompact b.nBits).value := by
        apply Nat.mod_eq_of_lt
        calc avg * i + (SetCompact b.nBits).value ≤ B * (i + 1) := hsum
          _ ≤ B * (range + 1) := Nat.mul_le_mul_left B (by omega)
          _ < 2 ^ 256 := hB
      rw [btvaWalk_cons, if_pos (by omega), hstep]
      rw [List.take_succ_cons, List.take_zero, List.map_cons, List.map_nil,
        List.getD_cons_zero, wavgGo_cons, wavgGo_nil, decodedTarget_eq]
  | succ k ih =>
    intro blocks i avg h1 h2 h3 havg htg
    cases blocks with
    | nil => simp at h3
    | cons b rest =>
      have htb : (SetCompact b.nBits).value ≤ B := by
        apply htg b
        rw [List.take_succ_cons]
        exact List.mem_cons_self b _
      have hsum : avg * i + (SetCompact b.nBits).value ≤ B * (i + 1) := by
        calc avg * i + (SetCompact b.nBits).value ≤ B * i + B :=
            Nat.add_le_add (Nat.mul_le_mul_right i havg) htb
          _ = B * (i + 1) := by ring
      have hstep : (avg * i + (SetCompact b.nBits).value) % 2 ^ 256 =
          avg * i + (SetCompact b.nBits).value := by
        apply Nat.mod_eq_of_lt
        calc avg * i + (SetCompact b.nBits).value ≤ B * (i + 1) := hsum
          _ ≤ B * (range + 1) := Nat.mul_le_mul_left B (by omega)
          _ < 2 ^ 256 := hB
      rw [btvaWalk_cons, if_neg (by omega)]
      cases rest with
      | nil =>
        exfalso
        simp only [List.length_cons, List.length_nil] at h3
        omega
      | cons b2 rest2 =>
        show btvaWalk range (b2 :: rest2) (i + 1)
            (if i = 1 then (SetCompact b.nBits).value
             else ((avg * i + (SetCompact b.nBits).value) % 2 ^ 256) / (i + 1)) = _
        rw [hstep]
        have havg2 : (if i = 1 then (SetCompact b.nBits).value
            else (avg * i + (SetCompact b.nBits).value) / (i + 1)) ≤ B := by
          split_ifs with hone
          · exact htb
          · calc (avg * i + (SetCompact b.nBits).value) / (i + 1) ≤
                B * (i + 1) / (i + 1) := Nat.div_le_div_right hsum
              _ = B := Nat.mul_div_cancel B (by omega)
        have htg2 : ∀ x ∈ (b2 :: rest2).take (k + 1),
            (SetCompact x.nBits).value ≤ B := by
          intro x hx
          apply htg
          rw [List.take_succ_cons]
          exact List.mem_cons_of_mem b hx
        rw [ih (b2 :: rest2) (i + 1) _ (by omega) (by omega)
          (by simp only [List.length_cons] at h3 ⊢; omega) havg2 htg2]
        rw [show List.map decodedTarget (List.take (k + 1 + 1) (b :: b2 :: rest2)) =
            decodedTarget b :: List.map decodedTarget (List.take (k + 1) (b2 :: rest2))
            from rfl,
          show (b :: b2 :: rest2).getD (k + 1) (⟨0, 0, 0⟩ : BlockRec) =
            (b2 :: rest2).getD k (⟨0, 0, 0⟩ : BlockRec) from rfl,
          wavgGo_cons, decodedTarget_eq]

theorem btva_walk_result (params : Params) (tip : BlockRec) (rest : List BlockRec)
    (B : Nat)
    (h1 : 1 ≤ params.nDifficultyAdjustmentRange)
    (h2 : params.nDifficultyAdjustmentRange ≤ (tip :: rest).length)
    (h3 : params.nDifficultyAdjustmentRange ≤ tip.nHeight)
    (hB : B * (params.nDifficultyAdjustmentRange + 1) < 2 ^ 256)
    (htg : ∀ b ∈ (tip :: rest).take params.nDifficultyAdjustmentRange,
      (SetCompact b.nBits).value ≤ B) :
    BlockTimeVarianceAdjustment (tip :: rest) params =
      some (btvaFinish params tip
        ((tip :: rest).getD (params.nDifficultyAdjustmentRange - 1) ⟨0, 0, 0⟩)
        (weightedTargetAvg (((tip :: rest).take params.nDifficultyAdjustmentRange).map
          decodedTarget))) := by
  have hunfold : BlockTimeVarianceAdjustment (tip :: rest) params =
      if tip.nHeight < params.nDifficultyAdjustmentRange then
        some (GetCompact params.powLimit)
      else if params.nDifficultyAdjustmentRange = 0 then
        some (btvaFinish params tip tip 0)
      else
        match btvaWalk params.nDifficultyAdjustmentRange (tip :: rest) 1 0 with
        | none => none
        | some (avg, oldest) => some (btvaFinish params tip oldest avg) := rfl
  rw [hunfold, if_neg (by omega), if_neg (by omega)]
  have hspec := btvaWalk_spec params.nDifficultyAdjustmentRange B hB
    (params.nDifficultyAdjustmentRange - 1) (tip :: rest) 1 0
    (le_refl 1) (by omega)
    (by simp only [List.length_cons] at h2 ⊢; omega)
    (Nat.zero_le B)
    (by rw [show params.nDifficultyAdjustmentRange - 1 + 1 =
        params.nDifficultyAdjustmentRange from by omega]; exact htg)
  rw [show params.nDifficultyAdjustmentRange - 1 + 1 =
    params.nDifficultyAdjustmentRange from by omega] at hspec
  rw [hspec]
  rfl

/-- Claim C7: on a chain whose tip height is at least
`nDifficultyAdjustmentRange`, `BlockTimeVarianceAdjustment` samples
exactly the `nDifficultyAdjustmentRange` most recent blocks and folds
their decoded targets by the recency-weighted recurrence
`avg ← (avg*i + target_i)/(i+1)` (`i = 1` the most recent); on shorter
chains it returns `powLimit`'s compact form. -/
theorem blockTimeVarianceAdjustment_claim :
    (∀ (params : Params) (tip : BlockRec) (rest : List BlockRec),
      tip.nHeight < params.nDifficultyAdjustmentRange →
      BlockTimeVarianceAdjustment (tip :: rest) params =
        some (GetCompact params.powLimit)) ∧
    (∀ (params : Params) (tip : BlockRec) (rest : List BlockRec) (B : Nat),
      1 ≤ params.nDifficultyAdjustmentRange →
      params.nDifficultyAdjustmentRange ≤ (tip :: rest).length →
      params.nDifficultyAdjustmentRange ≤ tip.nHeight →
      B * (params.nDifficultyAdjustmentRange + 1) < 2 ^ 256 →
      (∀ b ∈ (tip :: rest).take params.nDifficultyAdjustmentRange,
        (SetCompact b.nBits).value ≤ B) →
      BlockTimeVarianceAdjustment (tip :: rest) params =
        some (btvaFinish params tip
          ((tip :: rest).getD (params.nDifficultyAdjustmentRange - 1) ⟨0, 0, 0⟩)
          (weightedTargetAvg (((tip :: rest).take params.nDifficultyAdjustmentRange).map
            decodedTarget)))) := by
  constructor
  · intro params tip rest h
    have hunfold : BlockTimeVarianceAdjustment (tip :: rest) params =
        if tip.nHeight < params.nDifficultyAdjustmentRange then
          some (GetCompact params.powLimit)
        else if params.nDifficultyAdjustmentRange = 0 then
          some (btvaFinish params tip tip 0)
        else
          match btvaWalk params.nDifficultyAdjustmentRange (tip :: rest) 1 0 with
          | none => none
          | some (avg, oldest) => some (btvaFinish params tip oldest avg) := rfl
    rw [hunfold, if_pos h]
  · intro params tip rest B h1 h2 h3 hB htg
    exact btva_walk_result params tip rest B h1 h2 h3 hB htg

set_option maxRecDepth 100000 in
set_option maxHeartbeats 2000000 in
/-- Witness for claim C7: a three-block chain with range 2 — the
weighted average of the two most recent targets (both `2^200`) times the
600s actual timespan over the 1200s target timespan yields `2^199`; a
one-block chain (tip height 1 below range 2) yields `powLimit`. -/
theorem blockTimeVarianceAdjustment_claim_witness :
    BlockTimeVarianceAdjustment [⟨1, 600, GetCompact (2 ^ 200)⟩]
        ⟨2 ^ 224, 600, 1209600, 2, 10000, false, false⟩ =
      some (GetCompact (2 ^ 224)) ∧
    BlockTimeVarianceAdjustment
        [⟨2, 1200, GetCompact (2 ^ 200)⟩, ⟨1, 600, GetCompact (2 ^ 200)⟩,
          ⟨0, 0, GetCompact (2 ^ 200)⟩]
        ⟨2 ^ 224, 600, 1209600, 2, 10000, false, false⟩ =
      some (GetCompact (2 ^ 199)) :=
  ⟨blockTimeVarianceAdjustment_claim.1 ⟨2 ^ 224, 600, 1209600, 2, 10000, false, false⟩
      ⟨1, 600, GetCompact (2 ^ 200)⟩ [] (by decide),
   blockTimeVarianceAdjustment_claim.2 ⟨2 ^ 224, 600, 1209600, 2, 10000, false, false⟩
      ⟨2, 1200, GetCompact (2 ^ 200)⟩
      [⟨1, 600, GetCompact (2 ^ 200)⟩, ⟨0, 0, GetCompact (2 ^ 200)⟩] (2 ^ 200)
      (by decide) (by decide) (by decide) (by decide) (by decide)⟩

theorem btvaFinish_eq (params : Params) (pindexLast oldest : BlockRec) (avg : Nat)
    (hpl : params.powLimit * 2 < 2 ^ 256)
    (hA : avg * (params.nDifficultyAdjustmentRange * params.nPowTargetSpacing * 4) <
      2 ^ 256) :
    btvaFinish params pindexLast oldest avg =
      GetCompact (min
        (if (pindexLast.nHeight / params.nHeightInterval) % 2 = 1 then 2 * params.powLimit
         else params.powLimit)
        (avg * clampedTimespan (params.nDifficultyAdjustmentRange * params.nPowTargetSpacing)
            (pindexLast.nTime - oldest.nTime) /
          (params.nDifficultyAdjustmentRange * params.nPowTargetSpacing))) := by
  simp only [btvaFinish]
  rw [clampedTimespan_eq]
  rw [Nat.mod_eq_of_lt
    (lt_of_le_of_lt (Nat.mul_le_mul_left avg (clampedTimespan_le _ _)) hA)]
  rw [Nat.mod_eq_of_lt hpl]
  rw [clamp_hi_eq_min]
  rw [Nat.mul_comm params.powLimit 2]

/-- Claim C8: in `BlockTimeVarianceAdjustment` the new target
`avg * clampedTimespan / targetTimespan` is clamped from above by
`powLimit`, except that when `(height / nHeightInterval) % 2 = 1` the
clamp limit is `2 * powLimit` instead — only this final clamp changes —
and the compact re-encoding of the clamped value is returned. -/
theorem blockTimeVarianceAdjustment_clamp (params : Params) (tip : BlockRec)
    (rest : List BlockRec) (B : Nat)
    (h1 : 1 ≤ params.nDifficultyAdjustmentRange)
    (h2 : params.nDifficultyAdjustmentRange ≤ (tip :: rest).length)
    (h3 : params.nDifficultyAdjustmentRange ≤ tip.nHeight)
    (hB : B * (params.nDifficultyAdjustmentRange + 1) < 2 ^ 256)
    (htg : ∀ b ∈ (tip :: rest).take params.nDifficultyAdjustmentRange,
      (SetCompact b.nBits).value ≤ B)
    (hpl : params.powLimit * 2 < 2 ^ 256)
    (hA : weightedTargetAvg (((tip :: rest).take params.nDifficultyAdjustmentRange).map
        decodedTarget) *
        (params.nDifficultyAdjustmentRange * params.nPowTargetSpacing * 4) < 2 ^ 256) :
    BlockTimeVarianceAdjustment (tip :: rest) params =
      some (GetCompact (min
        (if (tip.nHeight / params.nHeightInterval) % 2 = 1 then 2 * params.powLimit
         else params.powLimit)
        (weightedTargetAvg (((tip :: rest).take params.nDifficultyAdjustmentRange).map
            decodedTarget) *
          clampedTimespan (params.nDifficultyAdjustmentRange * params.nPowTargetSpacing)
            (tip.nTime -
              ((tip :: rest).getD (params.nDifficultyAdjustmentRange - 1) ⟨0, 0, 0⟩).nTime) /
          (params.nDifficultyAdjustmentRange * params.nPowTargetSpacing)))) := by
  rw [btva_walk_result params tip rest B h1 h2 h3 hB htg,
    btvaFinish_eq params tip _ _ hpl hA]

set_option maxRecDepth 100000 in
set_option maxHeartbeats 2000000 in
/-- Witness for claim C8: with `nHeightInterval = 1` and tip height 3,
`(3 / 1) % 2 = 1`, so the clamp limit is `2 * powLimit`; the unclamped
new target `2^200` is below it and is returned re-encoded. -/
theorem blockTimeVarianceAdjustment_clamp_witness :
    BlockTimeVarianceAdjustment
        [⟨3, 1800, GetCompact (2 ^ 200)⟩, ⟨2, 1200, GetCompact (2 ^ 200)⟩,
          ⟨1, 600, GetCompact (2 ^ 200)⟩]
        ⟨2 ^ 224, 600, 1209600, 2, 1, false, false⟩ =
      some (GetCompact (min (2 * 2 ^ 224) (2 ^ 200 * 600 / 1200))) :=
  blockTimeVarianceAdjustment_clamp ⟨2 ^ 224, 600, 1209600, 2, 1, false, false⟩
    ⟨3, 1800, GetCompact (2 ^ 200)⟩
    [⟨2, 1200, GetCompact (2 ^ 200)⟩, ⟨1, 600, GetCompact (2 ^ 200)⟩] (2 ^ 200)
    (by decide) (by decide) (by decide) (by decide) (by decide) (by decide) (by decide)
